import Mathlib

/-!
# Verification of the Stay userscript manager

Shallow embedding of the Stay repository's userscript storage and URL
matching core, covering:

* `src/Stay/ScriptManager.m` — the local script store (`saveScriptWithId:`,
  `removeScriptById:`, `scriptsForURL:`, `url:matchesPattern:`,
  `listAllScriptsMetadata`, `exportScriptsAsJSON`, `importScriptsFromJSON:`);
* `src/backend/routes/scripts.js` with `src/backend/models/Script.js`
  (shipped here as `src/unnamed/part_003`) — the backend list endpoint
  (`GET /`) and the update endpoint (`PUT /:id`) together with the
  `saveVersion` history method and the `pre('save')` timestamp hook.

Dictionaries (`NSMutableDictionary`) are modelled as association lists in
enumeration order; `NSDate` clock reads are passed in as explicit `Nat`
arguments; JSON deserialization on the import side is a faithful channel
with an explicit "parse failed" case, while serialization on the export
side carries `NSJSONSerialization`'s type restriction: a payload holding an
`NSDate` value cannot be serialized.
-/

namespace Stay

/-! ## Case-insensitive wildcard matching

`url:matchesPattern:` escapes the pattern with
`NSRegularExpression.escapedPatternForString` (so every regex metacharacter
becomes a literal), rewrites every escaped `\*` to `.*`, compiles the result
case-insensitively, and reports `numberOfMatchesInString > 0`, i.e. whether
the regex occurs *somewhere* in the URL string (an unanchored search).

Semantically the compiled regex is therefore the wildcard language: each
non-`*` pattern character matches itself case-insensitively and each `*`
matches any sequence of characters.  An unanchored search for that regex is
the same as an anchored wildcard match with one extra `*` appended on each
side, which is how `urlMatchesPattern` is stated below.
-/

/-- ASCII lowercasing of one character; models the effect of
`NSRegularExpressionCaseInsensitive` on a literal character. -/
def lc (c : Char) : Char := c.toLower

/-- Lowercasing of a character list. -/
def lcL (s : List Char) : List Char := s.map lc

/-- Lowercasing of a string; models `NSString.lowercaseString`. -/
def strLower (s : String) : String := ⟨lcL s.data⟩

/-- Search step for a `*`: `f` (the matcher for the rest of the pattern) is
tried at the current position and at every later suffix of the string, which
is exactly "`.*` consumes zero or more characters". -/
def scanStar (f : List Char → Bool) : List Char → Bool
  | [] => f []
  | c :: cs => f (c :: cs) || scanStar f cs

/-- Anchored wildcard match: `*` matches any sequence of characters, every
other pattern character matches exactly itself up to case. -/
def wmatch : List Char → List Char → Bool
  | [] => fun s => s.isEmpty
  | p :: ps =>
    if p = '*' then scanStar (wmatch ps)
    else fun s =>
      match s with
      | [] => false
      | c :: cs => (lc p == lc c) && wmatch ps cs

/-- Model of `url:matchesPattern:` — unanchored, case-insensitive search of the
compiled wildcard pattern inside the URL string (`numberOfMatchesInString`
counts occurrences anywhere, so the search is equivalent to an anchored
wildcard match padded with `*` on both sides).  Regex construction cannot
fail because every metacharacter has been escaped, so the `error` branch
returning `NO` is dead. -/
def urlMatchesPattern (urlString pattern : String) : Bool :=
  wmatch ('*' :: (pattern.data ++ ['*'])) urlString.data

/-! ## The local store (`ScriptManager.m`) -/

/-- The metadata dictionary built literally in `saveScriptWithId:`:
`@{id, name, description, version, domain, updatedAt}`. -/
structure Metadata where
  id : String
  name : String
  description : String
  version : String
  domain : String
  updatedAt : Nat
deriving DecidableEq, Repr

/-- The field/value view of a `Metadata` dictionary, used to state which
keys the dictionary carries. -/
inductive MVal where
  | str : String → MVal
  | date : Nat → MVal
deriving DecidableEq, Repr

/-- The key/value entries of the metadata dictionary, in the order they are
written in `saveScriptWithId:`. -/
def metaFields (m : Metadata) : List (String × MVal) :=
  [("id", .str m.id), ("name", .str m.name), ("description", .str m.description),
   ("version", .str m.version), ("domain", .str m.domain),
   ("updatedAt", .date m.updatedAt)]

/-- Model of `NSDictionary objectForKey:`. -/
def getKV {α : Type} (k : String) : List (String × α) → Option α
  | [] => none
  | (k', v) :: rest => if k' = k then some v else getKV k rest

/-- Model of `NSMutableDictionary setObject:forKey:`: replace in place if the key is
present, otherwise append a new entry. -/
def setKV {α : Type} (k : String) (v : α) : List (String × α) → List (String × α)
  | [] => [(k, v)]
  | (k', v') :: rest => if k' = k then (k, v) :: rest else (k', v') :: setKV k v rest

/-- Model of `NSMutableDictionary removeObjectForKey:`: drop every entry carrying the
key (at most one when keys are unique); a no-op when the key is absent. -/
def delKV {α : Type} (k : String) (l : List (String × α)) : List (String × α) :=
  l.filter (fun p => p.1 ≠ k)

/-- The in-memory state of `ScriptManager`: the `scripts` metadata
dictionary and the `scriptSources` dictionary, keyed by script id. -/
structure Store where
  scripts : List (String × Metadata)
  sources : List (String × String)
deriving DecidableEq, Repr

/-- The store right after `init` (no saved data). -/
def emptyStore : Store := ⟨[], []⟩

/-- Model of `saveScriptWithId:name:description:sourceCode:version:domain:` — builds
the metadata dictionary and unconditionally stores metadata and source under
the id.  There is no validation of any argument and no error path; `now`
models the `[NSDate date]` clock read. -/
def saveScriptWithId (st : Store) (scriptId name description sourceCode version
    domainPattern : String) (now : Nat) : Store :=
  { scripts := setKV scriptId ⟨scriptId, name, description, version, domainPattern, now⟩ st.scripts,
    sources := setKV scriptId sourceCode st.sources }

/-- Model of `removeScriptById:` — removes the id from both dictionaries;
`removeObjectForKey:` does nothing when the key is absent. -/
def removeScriptById (st : Store) (scriptId : String) : Store :=
  { scripts := delKV scriptId st.scripts,
    sources := delKV scriptId st.sources }

/-- Model of `scriptsForURL:` — lowercases the URL, then for every stored script (in
dictionary enumeration order) whose `domain` pattern matches, collects the
script's source if one is stored. -/
def scriptsForURL (st : Store) (url : String) : List String :=
  st.scripts.filterMap (fun kv =>
    if urlMatchesPattern (strLower url) kv.2.domain then getKV kv.1 st.sources else none)

/-- Model of `listAllScriptsMetadata` — `allValues` of the metadata dictionary. -/
def listAllScriptsMetadata (st : Store) : List Metadata :=
  st.scripts.map Prod.snd

/-! ## Export / import (`ScriptManager.m`) -/

/-- A parsed import payload.  `malformed` models a JSON deserialization
error; otherwise the payload is a dictionary whose `metadata`, `sources`,
`version` and `exportDate` keys may each be absent. -/
inductive ImportInput where
  | malformed : ImportInput
  | doc : Option (List (String × Metadata)) → Option (List (String × String)) →
      Option String → Option Nat → ImportInput
deriving DecidableEq

/-- Dates occurring in an export payload: the `exportDate` field and every
metadata dictionary's `updatedAt`.  `NSJSONSerialization` accepts only
strings, numbers, arrays, dictionaries and null — an `NSDate` anywhere in
the object graph makes `dataWithJSONObject:` fail — so a payload serializes
only when this list is empty. -/
def payloadDates : ImportInput → List Nat
  | .malformed => []
  | .doc m _ _ e =>
    (match e with | some d => [d] | none => []) ++
      (match m with | some l => l.map (fun kv => kv.2.updatedAt) | none => [])

/-- Model of `exportScriptsAsJSON` — builds
`@{metadata, sources, exportDate, version}` and hands it to
`NSJSONSerialization dataWithJSONObject:`.  The payload always contains the
`exportDate` `NSDate` (and one `updatedAt` `NSDate` per stored script),
which JSON serialization rejects, so the error path is always taken and the
method yields no snapshot (`nil`). -/
def exportScriptsAsJSON (st : Store) (now : Nat) : Option ImportInput :=
  let payload : ImportInput := .doc (some st.scripts) (some st.sources) (some "1.0") (some now)
  if payloadDates payload = [] then some payload else none

/-- Model of `importScriptsFromJSON:` — returns `NO` on a parse error or when either
the `metadata` or the `sources` key is missing, leaving the store untouched;
otherwise replaces both dictionaries wholesale.  The `version` and
`exportDate` fields of the payload are never inspected. -/
def importScriptsFromJSON (st : Store) (inp : ImportInput) : Bool × Store :=
  match inp with
  | .malformed => (false, st)
  | .doc m s _ _ =>
    match m, s with
    | some m, some s => (true, ⟨m, s⟩)
    | some _, none => (false, st)
    | none, _ => (false, st)

/-! ## The backend store (`models/Script.js`, `routes/scripts.js`)

Records of the mongoose `Script` schema, restricted to the fields the
list/update endpoints touch (`tags`, `category`, `metadata`, `isPublic`,
review and download counters are orthogonal bookkeeping and carried by no
operation modelled here). -/

/-- One `versionHistory` entry: `{version, sourceCode, changelog}`
(`createdAt` is a clock read, modelled like the other timestamps). -/
structure HistEntry where
  version : String
  sourceCode : String
  changelog : String
  createdAt : Nat
deriving DecidableEq, Repr

/-- A stored backend script document. -/
structure BScript where
  sid : String
  authorId : String
  name : String
  description : String
  sourceCode : String
  version : String
  versionHistory : List HistEntry
  updatedAt : Nat
deriving DecidableEq, Repr

/-- The `pre('save')` hook: every `save()` stamps `updatedAt` with the
current time. -/
def touchSave (s : BScript) (now : Nat) : BScript :=
  { s with updatedAt := now }

/-- JavaScript truthiness of an optional string field: present and
non-empty. -/
def truthy : Option String → Bool
  | some s => !s.isEmpty
  | none => false

/-- Model of the JS default `changelog || 'No changelog provided'`: the
default is substituted for a falsy changelog, i.e. one that is absent *or*
the empty string. -/
def changelogOrDefault (changelog : Option String) : String :=
  if truthy changelog then changelog.getD "" else "No changelog provided"

/-- Model of `ScriptSchema.methods.saveVersion` — pushes the *current* version and
source onto `versionHistory` (with the given changelog, defaulted when
falsy), then saves. -/
def saveVersion (s : BScript) (changelog : Option String) (now : Nat) : BScript :=
  touchSave
    { s with versionHistory :=
        s.versionHistory ++ [⟨s.version, s.sourceCode, changelogOrDefault changelog, now⟩] }
    now

/-- Fields of the `POST /` request body used by the create route. -/
structure CreateBody where
  name : String
  description : String
  sourceCode : String
  version : Option String
deriving DecidableEq, Repr

/-- Model of `POST /` — rejects a missing/empty name, description or source code
with a 400 (`none`); otherwise builds the new document (empty history,
defaulted version) and saves it. -/
def createScript (b : CreateBody) (sid authorId : String) (now : Nat) : Option BScript :=
  if !truthy (some b.name) || !truthy (some b.description) || !truthy (some b.sourceCode) then
    none
  else
    some (touchSave ⟨sid, authorId, b.name, b.description, b.sourceCode,
      (if truthy b.version then b.version.getD "" else "1.0.0"), [], 0⟩ now)

/-- Fields of the `PUT /:id` request body used by the update route. -/
structure UpdateBody where
  name : Option String
  description : Option String
  sourceCode : Option String
  version : Option String
  changelog : Option String
deriving DecidableEq, Repr

/-- Model of `if (field) script.field = field` — a truthy body field overwrites the
stored one. -/
def applyField (cur : String) (o : Option String) : String :=
  if truthy o then o.getD cur else cur

/-- The body of `PUT /:id` once the document has been found: if a truthy
`sourceCode` differs from the stored one, the *old* version/source pair is
appended to the history first; then each truthy field overwrites the stored
field and the document is saved (stamping `updatedAt`). -/
def updateScript (script : BScript) (b : UpdateBody) (now : Nat) : BScript :=
  let script :=
    if truthy b.sourceCode && (b.sourceCode.getD "") != script.sourceCode then
      saveVersion script b.changelog now
    else script
  touchSave
    { script with
        name := applyField script.name b.name,
        description := applyField script.description b.description,
        sourceCode := applyField script.sourceCode b.sourceCode,
        version := applyField script.version b.version }
    now

/-- Model of `updatedAt: -1` — the sort order of the list endpoint: newer first. -/
def byUpdatedDesc (a b : BScript) : Prop := b.updatedAt ≤ a.updatedAt

instance : DecidableRel byUpdatedDesc := fun a b => Nat.decLe b.updatedAt a.updatedAt

instance : IsTotal BScript byUpdatedDesc := ⟨fun a b => (Nat.le_total b.updatedAt a.updatedAt)⟩

instance : IsTrans BScript byUpdatedDesc := ⟨fun _ _ _ h h' => Nat.le_trans h' h⟩

/-- Model of `GET /` before projection: the caller's documents sorted by `updatedAt`
descending (`Script.find({authorId}).sort({updatedAt: -1})`). -/
def getScriptsRecords (db : List BScript) (uid : String) : List BScript :=
  (db.filter (fun s => s.authorId == uid)).insertionSort byUpdatedDesc

/-- Field/value view of a backend document, used to state which keys a
projected document carries. -/
inductive BVal where
  | str : String → BVal
  | nat : Nat → BVal
  | hist : List HistEntry → BVal
deriving DecidableEq, Repr

/-- Model of `.select('-sourceCode')` — the projected document: every schema field
modelled here except `sourceCode`. -/
def projNoSource (r : BScript) : List (String × BVal) :=
  [("_id", .str r.sid), ("authorId", .str r.authorId), ("name", .str r.name),
   ("description", .str r.description), ("version", .str r.version),
   ("versionHistory", .hist r.versionHistory), ("updatedAt", .nat r.updatedAt)]

/-- Model of `GET /` — the response list: sorted documents with `sourceCode`
projected away. -/
def getScriptsList (db : List BScript) (uid : String) : List (List (String × BVal)) :=
  (getScriptsRecords db uid).map projNoSource

/-! ## Demonstration stores used by concrete counterexamples and witnesses -/

/-- A store holding one script whose `domain` pattern is the literal URL
`https://a.com/` (no wildcard). -/
def c1Store : Store :=
  ⟨[("s1", ⟨"s1", "demo", "demo", "1.0.0", "https://a.com/", 0⟩)], [("s1", "SRC1")]⟩

/-- A store holding one script with include pattern `*://*.example.com/*`
(the code has nowhere to put an exclude pattern). -/
def c2Store : Store :=
  ⟨[("s1", ⟨"s1", "demo", "demo", "1.0.0", "*://*.example.com/*", 0⟩)], [("s1", "EXSRC")]⟩

/-- A backend document whose live source is `S1` and whose history is
empty, as produced by the create route. -/
def c3Rec : BScript := ⟨"id1", "u1", "n", "d", "S1", "1.0.0", [], 5⟩

/-- An update request carrying the new source `S2` and a changelog. -/
def c3Body : UpdateBody := ⟨none, none, some "S2", none, some "fix"⟩

/-- A non-empty store, to witness that an import really replaced it. -/
def c6Store : Store :=
  ⟨[("s1", ⟨"s1", "n", "d", "1.0.0", "*", 1⟩)], [("s1", "SRC6")]⟩

/-- Two scripts whose enumeration order is the opposite of their
`updatedAt` order: `a` (updated at 5) is enumerated before `b` (updated at
9) and both match every URL. -/
def c8Store : Store :=
  ⟨[("a", ⟨"a", "na", "d", "1.0.0", "*", 5⟩), ("b", ⟨"b", "nb", "d", "1.0.0", "*", 9⟩)],
   [("a", "SA"), ("b", "SB")]⟩

/-- A metadata value as stored by a save. -/
def c9Meta : Metadata := ⟨"s9", "n", "d", "1.0.0", "*", 2⟩

/-- A one-script store for the metadata-listing witness. -/
def c9Store : Store := ⟨[("s9", c9Meta)], [("s9", "SRC9")]⟩

/-- A backend document for the list-endpoint witness. -/
def c9Rec : BScript := ⟨"b9", "u9", "n", "d", "SRC", "1.0.0", [], 3⟩

/-- A one-document backend collection. -/
def c9Db : List BScript := [c9Rec]

/-- A two-script store for the removal witness. -/
def c10Store : Store :=
  ⟨[("a", ⟨"a", "na", "d", "1.0.0", "*", 5⟩), ("b", ⟨"b", "nb", "d", "1.0.0", "*", 9⟩)],
   [("a", "SA"), ("b", "SB")]⟩

/-! ## Lemmas about the wildcard matcher -/

theorem wmatch_nil (s : List Char) : wmatch [] s = s.isEmpty := rfl

theorem wmatch_star (ps s : List Char) : wmatch ('*' :: ps) s = scanStar (wmatch ps) s := by
  simp [wmatch]

theorem wmatch_cons_nil {p : Char} (ps : List Char) (h : p ≠ '*') :
    wmatch (p :: ps) [] = false := by
  simp [wmatch, h]

theorem wmatch_cons_cons {p : Char} (ps : List Char) (h : p ≠ '*') (c : Char) (cs : List Char) :
    wmatch (p :: ps) (c :: cs) = ((lc p == lc c) && wmatch ps cs) := by
  simp [wmatch, h]

/-- A `*` step succeeds exactly when the rest of the pattern matches some
suffix of the string. -/
theorem scanStar_eq_true_iff (f : List Char → Bool) (s : List Char) :
    scanStar f s = true ↔ ∃ t, t <:+ s ∧ f t = true := by
  induction s with
  | nil => simp [scanStar]
  | cons c cs ih =>
    simp only [scanStar, Bool.or_eq_true, ih]
    constructor
    · rintro (h | ⟨t, ht, hf⟩)
      · exact ⟨c :: cs, List.suffix_rfl, h⟩
      · exact ⟨t, ht.trans (List.suffix_cons c cs), hf⟩
    · rintro ⟨t, ht, hf⟩
      rcases List.suffix_cons_iff.mp ht with h | h
      · exact Or.inl (h ▸ hf)
      · exact Or.inr ⟨t, h, hf⟩

/-- A pattern that is a single `*` matches every string. -/
theorem scanStar_wmatch_nil (s : List Char) : scanStar (wmatch []) s = true := by
  induction s with
  | nil => rfl
  | cons c cs ih => simp [scanStar, ih]

/-- A star-free pattern followed by a trailing `*` matches exactly the
strings whose lowercasing starts with the lowercased pattern. -/
theorem wmatch_append_star {p : List Char} (hp : '*' ∉ p) (s : List Char) :
    (wmatch (p ++ ['*']) s = true ↔ lcL p <+: lcL s) := by
  induction p generalizing s with
  | nil =>
    simp only [List.nil_append, lcL, List.map_nil]
    rw [wmatch_star]
    simp [scanStar_wmatch_nil s]
  | cons a p ih =>
    have ha : a ≠ '*' := fun h => hp (h ▸ List.mem_cons_self a p)
    have hp' : '*' ∉ p := fun h => hp (List.mem_cons_of_mem a h)
    cases s with
    | nil =>
      simp [wmatch_cons_nil _ ha, lcL]
    | cons c cs =>
      simp only [List.cons_append, wmatch_cons_cons _ ha, Bool.and_eq_true, beq_iff_eq,
        ih hp', lcL, List.map_cons, List.cons_prefix_cons]

/-- The unanchored search of a star-free pattern succeeds exactly when the
lowercased pattern occurs inside the lowercased URL. -/
theorem urlMatchesPattern_starfree_iff {u : String} (v : String) (h : '*' ∉ u.data) :
    (urlMatchesPattern v u = true ↔ lcL u.data <:+: lcL v.data) := by
  unfold urlMatchesPattern
  rw [wmatch_star, scanStar_eq_true_iff]
  constructor
  · rintro ⟨t, hsuf, hm⟩
    exact List.infix_iff_prefix_suffix.mpr
      ⟨lcL t, (wmatch_append_star h t).mp hm, List.IsSuffix.map lc hsuf⟩
  · intro hinf
    rcases List.infix_iff_prefix_suffix.mp hinf with ⟨t', hpre, pre, hpre'⟩
    refine ⟨v.data.drop pre.length, List.drop_suffix _ _, ?_⟩
    rw [wmatch_append_star h]
    have ht : lcL (v.data.drop pre.length) = t' := by
      have h1 : (lcL v.data).drop pre.length = t' := by
        rw [← hpre']; exact List.drop_left pre t'
      rw [← h1]; simp [lcL]
    rw [ht]; exact hpre

/-! ## Lemmas about the dictionary operations -/

theorem getKV_setKV_self {α : Type} (k : String) (v : α) (l : List (String × α)) :
    getKV k (setKV k v l) = some v := by
  induction l with
  | nil => simp [setKV, getKV]
  | cons p rest ih =>
    by_cases h : p.1 = k
    · simp [setKV, getKV, h]
    · simp [setKV, getKV, h, ih]

theorem getKV_setKV_ne {α : Type} {k k' : String} (v : α) (l : List (String × α))
    (h : k' ≠ k) : getKV k' (setKV k v l) = getKV k' l := by
  have hk : ¬ k = k' := fun hh => h hh.symm
  induction l with
  | nil => simp [setKV, getKV, hk]
  | cons p rest ih =>
    by_cases h1 : p.1 = k
    · simp [setKV, getKV, h1, hk]
    · simp [setKV, getKV, h1, ih]

theorem getKV_delKV_self {α : Type} (k : String) (l : List (String × α)) :
    getKV k (delKV k l) = none := by
  induction l with
  | nil => rfl
  | cons p rest ih =>
    by_cases h : p.1 = k
    · simp [delKV, List.filter_cons, h] at ih ⊢; exact ih
    · simp [delKV, List.filter_cons, h, getKV] at ih ⊢; exact ih

theorem getKV_delKV_ne {α : Type} {k k' : String} (l : List (String × α)) (h : k' ≠ k) :
    getKV k' (delKV k l) = getKV k' l := by
  induction l with
  | nil => rfl
  | cons p rest ih =>
    by_cases h1 : p.1 = k
    · have h2 : ¬ p.1 = k' := fun hh => h (hh.symm.trans h1)
      rw [delKV, List.filter_cons, if_neg (by simp [h1])]
      rw [delKV] at ih
      rw [ih, getKV, if_neg h2]
    · rw [delKV, List.filter_cons, if_pos (by simp [h1])]
      rw [delKV] at ih
      rw [getKV, getKV]
      by_cases h3 : p.1 = k'
      · rw [if_pos h3, if_pos h3]
      · rw [if_neg h3, if_neg h3]; exact ih

theorem delKV_of_absent {α : Type} {k : String} {l : List (String × α)}
    (h : getKV k l = none) : delKV k l = l := by
  induction l with
  | nil => rfl
  | cons p rest ih =>
    by_cases h1 : p.1 = k
    · rw [getKV, if_pos h1] at h; cases h
    · rw [getKV, if_neg h1] at h
      simp [delKV, List.filter_cons, h1] at ih ⊢
      exact ih h

/-- Adding a filter condition in front of a `filterMap` yields a sublist of
the unconditional `filterMap`, in the same order. -/
theorem filterMap_ite_sublist {α β : Type} (l : List α) (c : α → Bool) (f : α → Option β) :
    List.Sublist (l.filterMap fun x => if c x then f x else none) (l.filterMap f) := by
  induction l with
  | nil => simp
  | cons a t ih =>
    simp only [List.filterMap_cons]
    by_cases h : c a = true
    · rw [if_pos h]
      cases hf : f a
      · exact ih
      · exact ih.cons₂ _
    · rw [if_neg h]
      cases hf : f a
      · exact ih
      · exact ih.cons _

/-! ## Claim theorems -/

/-- Claim C1 (amended).  Matching is an *unanchored, case-insensitive
substring search*, not an anchored match: for a single include pattern
equal to a URL `u` verbatim (no `*`), `matches(u)` is true, and for any URL
`v`, `matches(v)` is true exactly when the lowercased `u` occurs as a
contiguous substring of the lowercased `v` — so `matches(v)` also holds
for some `v ≠ u`. -/
theorem claim_C1 (u v : String) (h : '*' ∉ u.data) :
    urlMatchesPattern u u = true ∧
    (urlMatchesPattern v u = true ↔ lcL u.data <:+: lcL v.data) := by
  exact ⟨(urlMatchesPattern_starfree_iff u h).mpr (List.infix_refl _),
    urlMatchesPattern_starfree_iff v h⟩

/-- Claim C1 witness: the amended statement evaluated at the verbatim
pattern `https://a.com/` and the distinct URL `https://a.com/x`. -/
theorem claim_C1_witness :
    urlMatchesPattern "https://a.com/" "https://a.com/" = true ∧
    (urlMatchesPattern "https://a.com/x" "https://a.com/" = true ↔
      lcL "https://a.com/".data <:+: lcL "https://a.com/x".data) :=
  claim_C1 "https://a.com/" "https://a.com/x" (by decide)

/-- Claim C1 counterexample: with the single include pattern
`https://a.com/` (no `*`), the distinct URL `https://a.com/x` also
matches — both through `url:matchesPattern:` and through
`scriptsForURL:` on a store holding that one rule — refuting
"`matches(v)` is false for every `v ≠ u`". -/
theorem claim_C1_cex :
    ("https://a.com/x" ≠ "https://a.com/") ∧
    ('*' ∉ "https://a.com/".data) ∧
    urlMatchesPattern "https://a.com/x" "https://a.com/" = true ∧
    scriptsForURL c1Store "https://a.com/x" = ["SRC1"] := by
  exact ⟨by decide, by decide, by decide, by decide⟩

/-- Claim C2 (amended).  A script's rule set is a *single include pattern*
(the `domain` field); there are no exclude patterns.  A source is returned
for a URL exactly when some stored script's domain pattern matches the
lowercased URL and a source is stored under that script's id; a store with
no scripts matches nothing.  In particular, with include
`*://*.example.com/*`, both `https://x.example.com/` and
`https://x.example.com/admin/y` match — nothing can exclude the latter. -/
theorem claim_C2 :
    (∀ (st : Store) (url src : String),
      src ∈ scriptsForURL st url ↔
        ∃ k m, (k, m) ∈ st.scripts ∧
          urlMatchesPattern (strLower url) m.domain = true ∧
          getKV k st.sources = some src) ∧
    (∀ url : String, scriptsForURL emptyStore url = []) ∧
    scriptsForURL c2Store "https://x.example.com/" = ["EXSRC"] ∧
    scriptsForURL c2Store "https://x.example.com/admin/y" = ["EXSRC"] := by
  refine ⟨?_, fun _ => rfl, by decide, by decide⟩
  intro st url src
  simp only [scriptsForURL, List.mem_filterMap]
  constructor
  · rintro ⟨⟨k, m⟩, hmem, hf⟩
    by_cases hm : urlMatchesPattern (strLower url) m.domain = true
    · rw [if_pos hm] at hf
      exact ⟨k, m, hmem, hm, hf⟩
    · rw [if_neg hm] at hf
      cases hf
  · rintro ⟨k, m, hmem, hm, hsrc⟩
    exact ⟨(k, m), hmem, by rw [if_pos hm]; exact hsrc⟩

/-- Claim C2 counterexample: the exclude half of the claim is not
implementable — the rule set with include `*://*.example.com/*` returns its
script for `https://x.example.com/admin/y`, where the claim demands
`matches` be false under the exclude `*://*.example.com/admin/*`. -/
theorem claim_C2_cex :
    scriptsForURL c2Store "https://x.example.com/admin/y" = ["EXSRC"] := by
  decide

/-- Claim C3 (amended).  On the backend update route, an update whose body
carries a non-empty `sourceCode` different from the stored one appends the
previous `(version, sourceCode)` pair — with the body's changelog,
defaulted when absent or empty — as the *last* `versionHistory` entry
before applying the new value: the live record then carries the new source,
the history is the old history plus exactly one entry, and the old history
survives as a prefix (never removed or reordered). -/
theorem claim_C3 (r : BScript) (b : UpdateBody) (now : Nat) (sc : String)
    (hb : b.sourceCode = some sc) (hne : sc ≠ r.sourceCode) (h0 : sc ≠ "") :
    (updateScript r b now).sourceCode = sc ∧
    (updateScript r b now).versionHistory =
      r.versionHistory ++
        [⟨r.version, r.sourceCode, changelogOrDefault b.changelog, now⟩] ∧
    (updateScript r b now).versionHistory.length = r.versionHistory.length + 1 ∧
    r.versionHistory <+: (updateScript r b now).versionHistory := by
  have h0' : sc.isEmpty = false := by
    cases hh : sc.isEmpty
    · rfl
    · exact absurd (String.isEmpty_iff sc |>.mp hh) h0
  refine ⟨?_, ?_, ?_, ?_⟩ <;>
    simp [updateScript, saveVersion, touchSave, applyField, truthy, hb, h0', hne]

/-- Claim C3 witness: the amended statement evaluated at a freshly created
record with source `S1` and an update to `S2`. -/
theorem claim_C3_witness :
    (updateScript c3Rec c3Body 7).sourceCode = "S2" ∧
    (updateScript c3Rec c3Body 7).versionHistory =
      c3Rec.versionHistory ++
        [⟨c3Rec.version, c3Rec.sourceCode, changelogOrDefault c3Body.changelog, 7⟩] ∧
    (updateScript c3Rec c3Body 7).versionHistory.length = c3Rec.versionHistory.length + 1 ∧
    c3Rec.versionHistory <+: (updateScript c3Rec c3Body 7).versionHistory :=
  claim_C3 c3Rec c3Body 7 "S2" rfl (by decide) (by decide)

/-- Claim C3 counterexample: create a record with source `S1`, then update it
to `S2` — the resulting `versionHistory` has length 1, so it has no
last-but-one entry at all; `S1` sits in the *last* (only) entry. -/
theorem claim_C3_cex :
    createScript ⟨"n", "d", "S1", none⟩ "id1" "u1" 5 = some c3Rec ∧
    (updateScript c3Rec c3Body 7).sourceCode = "S2" ∧
    (updateScript c3Rec c3Body 7).versionHistory = [⟨"1.0.0", "S1", "fix", 7⟩] ∧
    (updateScript c3Rec c3Body 7).versionHistory.length = 1 := by
  exact ⟨by decide, by decide, by decide, by decide⟩

/-- Claim C4 (code bug).  The round trip can never run: the export payload
always contains the `exportDate` `NSDate` (and one `updatedAt` `NSDate` per
stored script), which `NSJSONSerialization` rejects, so
`exportScriptsAsJSON` takes its error path and yields no snapshot for
*every* store — even the empty one.  Had the payload been delivered,
importing it would indeed succeed and reproduce the exported store exactly
(same dictionaries, same `listAllScriptsMetadata` sequence), which is what
the spec intends. -/
theorem claim_C4 (st st' : Store) (now : Nat) :
    exportScriptsAsJSON st now = none ∧
    importScriptsFromJSON st'
        (.doc (some st.scripts) (some st.sources) (some "1.0") (some now)) = (true, st) ∧
    listAllScriptsMetadata
        (importScriptsFromJSON st'
          (.doc (some st.scripts) (some st.sources) (some "1.0") (some now))).2 =
      listAllScriptsMetadata st := by
  refine ⟨?_, rfl, rfl⟩
  simp [exportScriptsAsJSON, payloadDates]

/-- Claim C5.  `saveScriptWithId:` performs no validation whatsoever: for
*every* input — including any malformed `domain` pattern — the metadata and
the source are persisted unconditionally and no error is possible (the
function is total).  Pattern compilation happens only later, inside
`url:matchesPattern:` at match time. -/
theorem claim_C5 (st : Store)
    (scriptId name description sourceCode version domainPattern : String) (now : Nat) :
    getKV scriptId
        (saveScriptWithId st scriptId name description sourceCode version domainPattern
          now).scripts =
      some ⟨scriptId, name, description, version, domainPattern, now⟩ ∧
    getKV scriptId
        (saveScriptWithId st scriptId name description sourceCode version domainPattern
          now).sources =
      some sourceCode :=
  ⟨getKV_setKV_self scriptId _ st.scripts, getKV_setKV_self scriptId _ st.sources⟩

/-- Claim C6 (amended).  `importScriptsFromJSON:` is all-or-nothing on the
inputs it rejects — a parse failure or a missing `metadata`/`sources` key
returns `NO` and leaves the store untouched, and any failing import leaves
the store untouched — but it never inspects the snapshot's format version:
any payload with both dictionaries present is imported wholesale, whatever
its `version` tag. -/
theorem claim_C6 :
    (∀ st : Store, importScriptsFromJSON st .malformed = (false, st)) ∧
    (∀ (st : Store) s v e, importScriptsFromJSON st (.doc none s v e) = (false, st)) ∧
    (∀ (st : Store) m v e, importScriptsFromJSON st (.doc (some m) none v e) = (false, st)) ∧
    (∀ (st : Store) m s v e,
      importScriptsFromJSON st (.doc (some m) (some s) v e) = (true, ⟨m, s⟩)) ∧
    (∀ (st : Store) (inp : ImportInput),
      (importScriptsFromJSON st inp).1 = false → (importScriptsFromJSON st inp).2 = st) := by
  refine ⟨fun _ => rfl, fun _ _ _ _ => rfl, fun _ _ _ _ => rfl, fun _ _ _ _ _ => rfl, ?_⟩
  intro st inp hfail
  cases inp with
  | malformed => rfl
  | doc m s v e =>
    cases m with
    | none => rfl
    | some m =>
      cases s with
      | none => rfl
      | some s => cases hfail

/-- Claim C6 witness: the all-or-nothing clause applied to a parse failure
against a non-empty store. -/
theorem claim_C6_witness :
    (importScriptsFromJSON c6Store ImportInput.malformed).2 = c6Store :=
  claim_C6.2.2.2.2 c6Store ImportInput.malformed rfl

/-- Claim C6 counterexample: a snapshot carrying the unrecognized format
version `"99.0"` is *not* rejected — the import reports success and
replaces the non-empty store. -/
theorem claim_C6_cex :
    importScriptsFromJSON c6Store (.doc (some []) (some []) (some "99.0") (some 3)) =
      (true, ⟨[], []⟩) ∧
    (⟨[], []⟩ : Store) ≠ c6Store :=
  ⟨rfl, by decide⟩

/-- Claim C7.  Wildcard compilation: after escaping, every non-`*` pattern
character matches only itself (case-insensitively) and each `*` matches any
sequence of characters — a lone `*` matches every string; the pattern
`*://*.example.com/*` matches `https://api.example.com/path?x=1` (also in
upper case) and does not match `https://example.org/`. -/
theorem claim_C7 :
    (∀ s : List Char, wmatch ['*'] s = true) ∧
    urlMatchesPattern "https://api.example.com/path?x=1" "*://*.example.com/*" = true ∧
    urlMatchesPattern "https://example.org/" "*://*.example.com/*" = false ∧
    urlMatchesPattern "HTTPS://API.EXAMPLE.COM/PATH?X=1" "*://*.example.com/*" = true := by
  refine ⟨?_, by decide, by decide, by decide⟩
  intro s
  rw [wmatch_star]
  exact scanStar_wmatch_nil s

/-- Claim C8 (amended).  The backend list endpoint does return documents
sorted by `updatedAt` descending; but the local matching query
`scriptsForURL:` performs no sorting — it returns the matching sources as a
sublist of the stored sources in store enumeration order (and, being a pure
function of the store and URL, is deterministic across calls). -/
theorem claim_C8 :
    (∀ (db : List BScript) (uid : String),
      List.Sorted byUpdatedDesc (getScriptsRecords db uid)) ∧
    (∀ (st : Store) (url : String),
      List.Sublist (scriptsForURL st url)
        (st.scripts.filterMap fun kv => getKV kv.1 st.sources)) := by
  constructor
  · intro db uid
    exact List.sorted_insertionSort byUpdatedDesc _
  · intro st url
    exact filterMap_ite_sublist st.scripts _ _

/-- Claim C8 counterexample: a store whose enumeration order is the opposite
of its `updatedAt` order — `scriptsForURL:` returns the script updated at 5
*before* the script updated at 9, so the sequence is not ordered by
`updatedAt` descending. -/
theorem claim_C8_cex :
    scriptsForURL c8Store "https://q.com/" = ["SA", "SB"] ∧
    (getKV "a" c8Store.scripts).map Metadata.updatedAt = some 5 ∧
    (getKV "b" c8Store.scripts).map Metadata.updatedAt = some 9 ∧
    getKV "a" c8Store.sources = some "SA" ∧
    getKV "b" c8Store.sources = some "SB" := by
  exact ⟨by decide, by decide, by decide, by decide, by decide⟩

/-- Claim C9.  Listing returns metadata only: every element of
`listAllScriptsMetadata` is a metadata dictionary carrying no `sourceCode`
key, and every document returned by the backend list endpoint (which
projects with `-sourceCode`) likewise carries no `sourceCode` key. -/
theorem claim_C9 :
    (∀ (st : Store) (m : Metadata),
      m ∈ listAllScriptsMetadata st → getKV "sourceCode" (metaFields m) = none) ∧
    (∀ (db : List BScript) (uid : String) (d : List (String × BVal)),
      d ∈ getScriptsList db uid → getKV "sourceCode" d = none) := by
  constructor
  · intro st m _
    rfl
  · intro db uid d hd
    rcases List.mem_map.mp hd with ⟨r, _, rfl⟩
    rfl

/-- Claim C9 witness: both clauses evaluated on concrete one-element
stores. -/
theorem claim_C9_witness :
    getKV "sourceCode" (metaFields c9Meta) = none ∧
    getKV "sourceCode" (projNoSource c9Rec) = none :=
  ⟨claim_C9.1 c9Store c9Meta (by decide),
   claim_C9.2 c9Db "u9" (projNoSource c9Rec) (by decide)⟩

/-- Claim C10.  `removeScriptById:` removes exactly the metadata entry and
the source entry of the given id, leaves every other id's metadata and
source lookups unchanged, and — being total, with no error path — leaves
the store observably unchanged when the id is absent. -/
theorem claim_C10 (st : Store) (scriptId : String) :
    getKV scriptId (removeScriptById st scriptId).scripts = none ∧
    getKV scriptId (removeScriptById st scriptId).sources = none ∧
    (∀ k, k ≠ scriptId →
      getKV k (removeScriptById st scriptId).scripts = getKV k st.scripts ∧
      getKV k (removeScriptById st scriptId).sources = getKV k st.sources) ∧
    (getKV scriptId st.scripts = none → getKV scriptId st.sources = none →
      removeScriptById st scriptId = st) := by
  refine ⟨getKV_delKV_self _ _, getKV_delKV_self _ _, ?_, ?_⟩
  · intro k hk
    exact ⟨getKV_delKV_ne st.scripts hk, getKV_delKV_ne st.sources hk⟩
  · intro h1 h2
    show Store.mk (delKV scriptId st.scripts) (delKV scriptId st.sources) = st
    rw [delKV_of_absent h1, delKV_of_absent h2]

/-- Claim C10 witness: frame and no-op clauses evaluated on a concrete
two-script store — removing `b` leaves `a` untouched, and removing the
absent id `zz` leaves the store unchanged. -/
theorem claim_C10_witness :
    (getKV "a" (removeScriptById c10Store "b").scripts = getKV "a" c10Store.scripts ∧
     getKV "a" (removeScriptById c10Store "b").sources = getKV "a" c10Store.sources) ∧
    removeScriptById c10Store "zz" = c10Store :=
  ⟨(claim_C10 c10Store "b").2.2.1 "a" (by decide),
   (claim_C10 c10Store "zz").2.2.2 (by decide) (by decide)⟩

end Stay
